import Mathlib

/-
Verification of the utterance-resolution core (`source/intent_services/__init__.py`)
of the vasco voice-assistant platform.

The Python code is shallowly embedded: pure fragments become Lean functions,
the mutable `IntentService` state (active-skill registry, registered-vocab log,
lingua-franca language state) is passed explicitly, and the external matcher
services (Adapt, Padatious, QA, Fallback) are parameters of the pipeline
functions, each producing either an exception, no match, or an `IntentMatch`,
exactly as the Python call sites observe them.  The converse bus round trip is
embedded separately (`do_converse`, `conversePass`, `converseMatch`,
`reset_converse`) with the remote skill replies as a parameter.
-/

namespace Vasco

/-- Model of the Python values that flow through message `data` dictionaries:
`None`, strings, integers and booleans. -/
inductive PyVal where
  | none
  | str (s : String)
  | int (n : Int)
  | boolean (b : Bool)
deriving DecidableEq, Repr

/-- Python truthiness for the modelled values (`bool(v)`). -/
def PyVal.truthy : PyVal → Bool
  | .none => false
  | .str s => s != ""
  | .int n => n != 0
  | .boolean b => b

/-- Python `isinstance(v, str)`. -/
def PyVal.isStr : PyVal → Bool
  | .str _ => true
  | _ => false

/-- Python `str(v)` for the modelled values. -/
def PyVal.pyStr : PyVal → String
  | .none => "None"
  | .str s => s
  | .int n => toString n
  | .boolean b => if b then "True" else "False"

/-- Truthiness of an optional string field of a namedtuple
(`if match.intent_type:`): `None` and `""` are falsy. -/
def optStrTruthy : Option String → Bool
  | Option.none => false
  | Option.some s => s != ""

/-- The value stored in a dict for a string-or-`None` Python variable. -/
def optToPy : Option String → PyVal
  | Option.none => PyVal.none
  | Option.some s => PyVal.str s

/-- The `IntentMatch` namedtuple from `intent_services/__init__.py`:
`(intent_service, intent_type, intent_data, skill_id)`.  `intent_data` is a
dict or `None`; `intent_type` and `skill_id` are strings or `None`. -/
structure IntentMatch where
  intent_service : String
  intent_type : Option String
  intent_data : Option (List (String × PyVal))
  skill_id : Option String
deriving DecidableEq, Repr

/-- An entry of `self.active_skills`: `[skill_id, timestamp]`. -/
abbrev Entry := String × Int

/-- Embedding of the body of `IntentService.remove_active_skill`:

    for skill in self.active_skills:
        if skill[0] == skill_id:
            self.active_skills.remove(skill)

CPython iterates by index over the list while the body may shrink it, and
`list.remove(x)` deletes the first element equal to `x`.  `i` is the
iterator's index; the fuel argument bounds the iteration count (the loop
performs at most `l.length` fetches, since `i` grows by one per fetch and the
list never grows). -/
def removeLoop : Nat → String → List Entry → Nat → List Entry
  | 0, _, l, _ => l
  | fuel + 1, sid, l, i =>
    if h : i < l.length then
      let x := l.get ⟨i, h⟩
      if x.1 = sid then removeLoop fuel sid (l.erase x) (i + 1)
      else removeLoop fuel sid l (i + 1)
    else l

/-- `IntentService.remove_active_skill` on an explicit registry. -/
def remove_active_skill (sid : String) (l : List Entry) : List Entry :=
  removeLoop l.length sid l 0

/-- `IntentService.add_active_skill` on an explicit registry: empty ids are
refused with a warning; otherwise any existing entry is removed and the skill
is inserted at the front paired with the current time. -/
def add_active_skill (sid : String) (now : Int) (l : List Entry) : List Entry :=
  if sid ≠ "" then (sid, now) :: remove_active_skill sid l
  else l

/-- The lazy expiry filter at the top of `IntentService._converse`:
`[skill for skill in self.active_skills if time.time() - skill[1] <= self.converse_timeout * 60]`. -/
def pruneExpired (now timeoutMin : Int) (l : List Entry) : List Entry :=
  l.filter (fun e => decide (now - e.2 ≤ timeoutMin * 60))

/-- The keys (`skill_id`s) of a registry. -/
def regKeys (l : List Entry) : List String := l.map Prod.fst

/-- Keys-nodup registries: at most one entry per `skill_id`. -/
def nodupKeys (l : List Entry) : Prop := (regKeys l).Nodup

instance (l : List Entry) : Decidable (nodupKeys l) := by
  unfold nodupKeys; infer_instance

/-- `self.converse_timeout = 10` minutes (`__init__`, line 118). -/
def converse_timeout : Int := 10

/-- The operations that mutate `self.active_skills`: activation
(`add_active_skill`), deactivation (`remove_active_skill`) and the lazy prune
performed by `_converse`. -/
inductive RegOp where
  | activate (sid : String) (now : Int)
  | deactivate (sid : String)
  | prune (now : Int)

def applyOp : RegOp → List Entry → List Entry
  | .activate sid now, l => add_active_skill sid now l
  | .deactivate sid, l => remove_active_skill sid l
  | .prune now, l => pruneExpired now converse_timeout l

/-- The registry reached from the initial empty `active_skills` list by a
sequence of operations. -/
def runOps (ops : List RegOp) : List Entry :=
  ops.foldl (fun s op => applyOp op s) []

/-- The payload of a `skill.converse.response` message as read by
`do_converse` and `handle_converse_error`: the responding skill id, the
optional `error` field, and the truthiness of the `result` field. -/
structure ReplyData where
  skill_id : String
  error : Option String
  result : Bool
deriving DecidableEq, Repr

/-- Embedding of `IntentService.do_converse` combined with
`handle_converse_error`.  `reply = Option.none` models `wait_for_response`
timing out.  A reply whose data has an `error` key is logged and yields
`False`, evicting the reported skill id exactly when the error text is
`"skill id does not exist"`; otherwise the truthiness of the reply's
`result` field is returned.  The updated registry is returned alongside. -/
def do_converse (reply : Option ReplyData) (reg : List Entry) :
    Bool × List Entry :=
  match reply with
  | Option.none => (false, reg)
  | Option.some d =>
    match d.error with
    | Option.some e =>
      (false,
        if e = "skill id does not exist" then remove_active_skill d.skill_id reg
        else reg)
    | Option.none => (d.result, reg)

/-- The iteration `for skill in copy(self.active_skills)` inside
`IntentService._converse`: `snapshot` is the copied list, `reg` the live
registry (which evictions mutate).  Returns the match (if any skill handled),
the final registry, and the skill ids to which a converse request was issued,
in order. -/
def conversePass (env : String → Option ReplyData) :
    List Entry → List Entry → Option IntentMatch × List Entry × List String
  | [], reg => (Option.none, reg, [])
  | e :: rest, reg =>
    if (do_converse (env e.1) reg).1 then
      (Option.some ⟨"Converse", Option.none, Option.none, Option.some e.1⟩,
        (do_converse (env e.1) reg).2, [e.1])
    else
      ((conversePass env rest (do_converse (env e.1) reg).2).1,
       (conversePass env rest (do_converse (env e.1) reg).2).2.1,
       e.1 :: (conversePass env rest (do_converse (env e.1) reg).2).2.2)

/-- Embedding of `IntentService._converse`: prune expired entries from the
registry, then give each remaining active skill (most recently activated
first) a chance at the utterance. -/
def converseMatch (env : String → Option ReplyData) (now : Int)
    (reg : List Entry) : Option IntentMatch × List Entry × List String :=
  let pruned := pruneExpired now converse_timeout reg
  conversePass env pruned pruned

/-- The loop of `IntentService.reset_converse`
(`for skill in copy(self.active_skills): self.do_converse(None, skill[0], lang, message)`). -/
def resetConverseLoop (env : String → Option ReplyData) :
    List Entry → List Entry → List Entry × List String
  | [], reg => (reg, [])
  | e :: rest, reg =>
    ((resetConverseLoop env rest (do_converse (env e.1) reg).2).1,
     e.1 :: (resetConverseLoop env rest (do_converse (env e.1) reg).2).2)

/-- Embedding of `IntentService.reset_converse`, the handler of
`core.speech.recognition.unknown`: converse with every skill currently in the
registry (no pruning).  Returns the final registry and the skill ids to which
a converse request was issued. -/
def reset_converse (env : String → Option ReplyData) (reg : List Entry) :
    List Entry × List String :=
  resetConverseLoop env reg reg

/-- Names for the nine matcher callables of `handle_utterance`. -/
inductive MatcherName where
  | converse
  | padatiousHigh
  | adapt
  | qa
  | fallbackHigh
  | padatiousMedium
  | fallbackMedium
  | padatiousLow
  | fallbackLow
deriving DecidableEq, Repr

/-- The `match_funcs` list of `handle_utterance` (lines 307-317), in source
order. -/
def match_funcs : List MatcherName :=
  [.converse, .padatiousHigh, .adapt, .qa, .fallbackHigh,
   .padatiousMedium, .fallbackMedium, .padatiousLow, .fallbackLow]

/-- What one matcher call can do, as observed at the call site
`match = match_func(utterance, lang, message)`: raise, return `None`, or
return an `IntentMatch` (a namedtuple, hence always truthy). -/
inductive MRes where
  | raises
  | noMatch
  | found (m : IntentMatch)
deriving DecidableEq, Repr

/-- The matcher loop of `handle_utterance` (lines 319-326): try each matcher
in order, stop at the first truthy result; an uncaught exception propagates
(there is no per-matcher handler).  Returns the outcome together with the
number of matchers that were invoked. -/
def runChain : List MRes → Except Unit (Option IntentMatch) × Nat
  | [] => (Except.ok Option.none, 0)
  | r :: rs =>
    match r with
    | .raises => (Except.error (), 1)
    | .found m => (Except.ok (Option.some m), 1)
    | .noMatch => ((runChain rs).1, (runChain rs).2 + 1)

/-- The chain outcome of `handle_utterance` for a matcher behaviour `f`
applied to utterance `u` and language `lang`. -/
def chainOf (f : MatcherName → String → String → MRes) (u lang : String) :
    Except Unit (Option IntentMatch) × Nat :=
  runChain (match_funcs.map (fun nm => f nm u lang))

/-- The messages `handle_utterance` itself publishes: the targeted intent
message (`message.reply(match.intent_type, match.intent_data)` with the
`utterances` key set to the utterance text) or `complete_intent_failure`. -/
inductive PipeMsg where
  | targeted (topic : String) (data : List (String × PyVal))
  | failure
deriving DecidableEq, Repr

def countTargeted (msgs : List PipeMsg) : Nat :=
  msgs.countP (fun m => match m with | .targeted _ _ => true | .failure => false)

def countFailure (msgs : List PipeMsg) : Nat :=
  msgs.countP (fun m => match m with | .failure => true | _ => false)

/-- The observable outcome of one `handle_utterance` run: whether the outer
`except` swallowed an exception (aborting the resolution), the messages the
pipeline itself emitted, the resulting active-skill registry, the effective
language passed to the matchers, and the lingua-franca state. -/
structure HUOutcome where
  aborted : Bool
  emitted : List PipeMsg
  registry : List Entry
  langUsed : String
  lfState : String
deriving DecidableEq, Repr

/-- Python `str.lower()` (character-wise lowering; coincides with the ASCII
language codes this code handles). -/
def strLower (s : String) : String := String.mk (s.data.map Char.toLower)

/-- `_get_message_lang` (lines 35-45):
`message.data.get("lang", Configuration.get().get("lang", "en-us")).lower()`. -/
def _get_message_lang (msgLang configLang : Option String) : String :=
  strLower (msgLang.getD (configLang.getD "en-us"))

/-- `set_default_lf_lang` from `source/configuration/locale.py`: the
lingua-franca call is commented out and the function just returns `"en-us"`;
the lingua-franca state `lf` is untouched. -/
def set_default_lf_lang (lang_code : String) (lf : String) : String × String :=
  (lf, "en-us")

/-- The tail of `handle_utterance` after the matcher loop (lines 327-342):
an uncaught exception aborts with nothing published; no match publishes
`complete_intent_failure`; a match activates its skill (if the `skill_id`
field is truthy) and publishes the targeted message (if the `intent_type`
field is truthy) carrying the intent data plus the utterance text. -/
def dispatchOutcome (res : Except Unit (Option IntentMatch)) (u : String)
    (reg : List Entry) (now : Int) (lang lf : String) : HUOutcome :=
  match res with
  | Except.error _ => ⟨true, [], reg, lang, lf⟩
  | Except.ok Option.none => ⟨false, [PipeMsg.failure], reg, lang, lf⟩
  | Except.ok (Option.some m) =>
    let reg' := if optStrTruthy m.skill_id then
        add_active_skill (m.skill_id.getD "") now reg else reg
    let msgs := if optStrTruthy m.intent_type then
        [PipeMsg.targeted (m.intent_type.getD "")
          ((m.intent_data.getD []) ++ [("utterances", PyVal.str u)])]
      else []
    ⟨false, msgs, reg', lang, lf⟩

/-- Embedding of `IntentService.handle_utterance` (lines 269-345).  The nine
matchers are a parameter `f`; the body computes the effective language, calls
`set_default_lf_lang`, takes `message.data.get("utterances", [])[0]` (an
empty list raises, caught by the outer handler), runs the matcher chain, and
dispatches the outcome. -/
def handle_utterance (f : MatcherName → String → String → MRes)
    (msgLang configLang : Option String) (utts : List String)
    (reg : List Entry) (now : Int) (lf : String) : HUOutcome :=
  let lang := _get_message_lang msgLang configLang
  let lf' := (set_default_lf_lang lang lf).1
  match utts with
  | [] => ⟨true, [], reg, lang, lf'⟩
  | u :: _ => dispatchOutcome (chainOf f u lang).1 u reg now lang lf'

/-- The context entity built by `IntentService.handle_add_context`
(`confidence` 1.0 is modelled as the numeral 1). -/
structure ContextEntity where
  confidence : Nat
  data : List (String × PyVal)
  match_ : String
  key : String
  origin : PyVal
deriving DecidableEq, Repr

/-- Embedding of `IntentService.handle_add_context` (lines 427-446):
`word = message.data.get("word") or ""`, then non-strings are passed through
`str`, and the entity is `{confidence: 1.0, data: [(word, context)],
match: word, key: word, origin: origin}`. -/
def handle_add_context (wordArg contextArg originArg : PyVal) : ContextEntity :=
  let word0 := if wordArg.truthy then wordArg else PyVal.str ""
  let origin := if originArg.truthy then originArg else PyVal.str ""
  let word := if word0.isStr then word0 else PyVal.str word0.pyStr
  { confidence := 1
    data := [(word.pyStr, contextArg)]
    match_ := word.pyStr
    key := word.pyStr
    origin := origin }

/-- `IntentService.handle_register_vocab`'s effect on the
`self.registered_vocab` audit log: the raw message payload is appended. -/
def handle_register_vocab {α : Type} (log : List α) (payload : α) : List α :=
  log ++ [payload]

/-- `IntentService.handle_vocab_manifest`: the reply's `vocab` field is the
whole `self.registered_vocab` log. -/
def handle_vocab_manifest {α : Type} (log : List α) : List α :=
  log

/-- The reduced `match_funcs` list of `handle_get_intent` (lines 478-486):
Padatious tiers and Adapt only; Converse and the Fallback tiers are absent
(commented out in the source). -/
def get_intent_funcs : List MatcherName :=
  [.padatiousHigh, .adapt, .padatiousMedium, .padatiousLow]

/-- `match_func.__name__` for each matcher callable. -/
def handlerName : MatcherName → String
  | .converse => "_converse"
  | .padatiousHigh => "match_high"
  | .adapt => "match_intent"
  | .qa => "match"
  | .fallbackHigh => "high_prio"
  | .padatiousMedium => "match_medium"
  | .fallbackMedium => "medium_prio"
  | .padatiousLow => "match_low"
  | .fallbackLow => "low_prio"

/-- The matcher loop of `handle_get_intent`: each produced element is the
`intent` field of one reply on `intent.service.intent.reply`.  Note the
source's early `return` inside `if match:` — a match without a truthy
`intent_type` produces no reply at all. -/
def giLoop (f : MatcherName → Option IntentMatch) :
    List MatcherName → List (Option (List (String × PyVal)))
  | [] => [Option.none]
  | nm :: rest =>
    match f nm with
    | Option.some m =>
      if optStrTruthy m.intent_type then
        [Option.some ((m.intent_data.getD []) ++
          [("intent_name", PyVal.str (m.intent_type.getD "")),
           ("intent_service", PyVal.str m.intent_service),
           ("skill_id", optToPy m.skill_id),
           ("handler", PyVal.str (handlerName nm))])]
      else []
    | Option.none => giLoop f rest

/-- Embedding of `IntentService.handle_get_intent` (lines 462-505): the
reduced matcher subset is probed in order and the replies (if any) are
returned; the active-skill registry is passed through untouched, as the
handler never references it. -/
def handle_get_intent (f : MatcherName → String → String → Option IntentMatch)
    (utterance : String) (msgLang : Option String) (reg : List Entry) :
    List (Option (List (String × PyVal))) × List Entry :=
  let lang := msgLang.getD "en-us"
  (giLoop (fun nm => f nm utterance lang) get_intent_funcs, reg)

/-- The claim C4-style "reply handled" reading of a converse response, with
the registry effect stripped: error or timeout means not handled, otherwise
the truthiness of the `result` field decides. -/
def replyHandled : Option ReplyData → Bool
  | Option.none => false
  | Option.some d =>
    match d.error with
    | Option.some _ => false
    | Option.none => d.result

/-- Fixture: a matcher assignment where Converse raises and the Padatious
high tier would match. -/
def raisingChain : MatcherName → String → String → MRes := fun nm _ _ =>
  match nm with
  | .converse => MRes.raises
  | .padatiousHigh => MRes.found
      ⟨"Padatious", Option.some "weather.intent", Option.some [],
        Option.some "weather-skill"⟩
  | _ => MRes.noMatch

/-- Fixture: a probe matcher whose high-tier match carries no `intent_type`. -/
def typelessProbe : MatcherName → String → String → Option IntentMatch :=
  fun nm _ _ =>
    match nm with
    | .padatiousHigh =>
        Option.some ⟨"Padatious", Option.none, Option.none, Option.none⟩
    | _ => Option.none

/-- Fixture: every converse request is answered with a truthy `result`. -/
def resultEnv : String → Option ReplyData :=
  fun sid => Option.some ⟨sid, Option.none, true⟩

/-- Fixture: every converse request times out. -/
def timeoutEnv : String → Option ReplyData := fun _ => Option.none

/-- The effective word stored by `handle_add_context`: the textual form of a
truthy word, the empty string otherwise. -/
def wordOf (w : PyVal) : String := if w.truthy then w.pyStr else ""

end Vasco

namespace Vasco

/- ### Lemmas about the registry operations -/

theorem removeLoop_id_of_no_key (sid : String) :
    ∀ (fuel : Nat) (l : List Entry) (i : Nat),
      (∀ e ∈ l, e.1 ≠ sid) → removeLoop fuel sid l i = l := by
  intro fuel
  induction fuel with
  | zero => intro l i _; rfl
  | succ n ih =>
    intro l i hno
    rw [removeLoop]
    split
    · rename_i h
      have hx : (l.get ⟨i, h⟩).1 ≠ sid := hno _ (l.get_mem i h)
      simp only [hx, if_neg, ite_false]
      exact ih l (i + 1) hno
    · rfl

theorem remove_id_of_no_key (sid : String) (l : List Entry)
    (hno : ∀ e ∈ l, e.1 ≠ sid) : remove_active_skill sid l = l :=
  removeLoop_id_of_no_key sid l.length l 0 hno

theorem nodupKeys_filter (p : Entry → Bool) (l : List Entry) (h : nodupKeys l) :
    nodupKeys (l.filter p) := by
  unfold nodupKeys regKeys at *
  exact (List.Sublist.map Prod.fst (List.filter_sublist l)).nodup h

theorem filter_eq_self_of_no_key (sid : String) (l : List Entry)
    (hno : ∀ e ∈ l, e.1 ≠ sid) :
    l.filter (fun e => !(e.1 == sid)) = l := by
  rw [List.filter_eq_self]
  intro e he
  simpa using hno e he

/-- On a registry whose keys are free of duplicates, the iterate-and-remove
loop of `remove_active_skill` removes exactly the entries whose key is the
target (there is at most one), i.e. it behaves as a filter. -/
theorem removeLoop_eq_filter (sid : String) :
    ∀ (fuel : Nat) (l : List Entry) (i : Nat),
      nodupKeys l → (∀ e ∈ l.take i, e.1 ≠ sid) → l.length - i ≤ fuel →
      removeLoop fuel sid l i = l.filter (fun e => !(e.1 == sid)) := by
  intro fuel
  induction fuel with
  | zero =>
    intro l i hnd hpre hfback
    have hi : l.length ≤ i := by omega
    have hall : ∀ e ∈ l, e.1 ≠ sid := by
      intro e he
      exact hpre e ((List.take_of_length_le hi).symm ▸ he)
    rw [removeLoop, filter_eq_self_of_no_key sid l hall]
  | succ n ih =>
    intro l i hnd hpre hfuel
    rw [removeLoop]
    split
    · rename_i h
      have hx : l.get ⟨i, h⟩ ∈ l := l.get_mem i h
      have hdrop : l.drop i = l.get ⟨i, h⟩ :: l.drop (i + 1) :=
        List.drop_eq_getElem_cons h
      by_cases hkey : (l.get ⟨i, h⟩).1 = sid
      · simp only [hkey, if_pos]
        set x := l.get ⟨i, h⟩ with hxdef
        -- the already-scanned prefix contains no entry equal to x
        have hxpre : x ∉ l.take i := by
          intro hmem
          exact hpre x hmem hkey
        -- erasing x deletes exactly the element at index i
        have herase : l.erase x = l.take i ++ l.drop (i + 1) := by
          conv_lhs => rw [← l.take_append_drop i, hdrop]
          rw [List.erase_append_right _ hxpre, List.erase_cons_head]
        -- with nodup keys, no other entry carries the key sid
        have hkeys : regKeys l =
            regKeys (l.take i) ++ sid :: regKeys (l.drop (i + 1)) := by
          unfold regKeys
          conv_lhs => rw [← l.take_append_drop i, hdrop]
          simp [hkey]
        have hnosid : ∀ e ∈ l.take i ++ l.drop (i + 1), e.1 ≠ sid := by
          have hnd' := hnd
          unfold nodupKeys at hnd'
          rw [hkeys, List.nodup_append] at hnd'
          obtain ⟨-, hr, hdisj⟩ := hnd'
          intro e he
          rcases List.mem_append.mp he with hl | hrr
          · intro heq
            exact hdisj (List.mem_map_of_mem Prod.fst hl)
              (heq ▸ List.mem_cons_self sid _)
          · intro heq
            exact (List.nodup_cons.mp hr).1
              (heq ▸ List.mem_map_of_mem Prod.fst hrr)
        have hid : removeLoop n sid (l.erase x) (i + 1) = l.erase x :=
          removeLoop_id_of_no_key sid n (l.erase x) (i + 1)
            (by rw [herase]; exact hnosid)
        rw [hid, herase]
        conv_rhs => rw [← l.take_append_drop i, hdrop]
        rw [List.filter_append,
          filter_eq_self_of_no_key sid _ (fun e he => hnosid e (List.mem_append_left _ he)),
          List.filter_cons]
        have hxfalse : (!(x.1 == sid)) = false := by simp [hkey]
        rw [hxfalse, if_neg (Bool.false_ne_true)]
        rw [filter_eq_self_of_no_key sid _ (fun e he => hnosid e (List.mem_append_right _ he))]
      · simp only [hkey, if_neg]
        apply ih l (i + 1) hnd
        · intro e he
          rw [List.take_succ] at he
          rcases List.mem_append.mp he with hl | hr
          · exact hpre e hl
          · rw [List.getElem?_eq_getElem h] at hr
            simp only [Option.toList_some, List.mem_singleton] at hr
            exact hr ▸ hkey
        · omega
    · rename_i h
      have hi : l.length ≤ i := by omega
      have hall : ∀ e ∈ l, e.1 ≠ sid := by
        intro e he
        exact hpre e ((List.take_of_length_le hi).symm ▸ he)
      rw [filter_eq_self_of_no_key sid l hall]

/-- `remove_active_skill` on a duplicate-free registry is the filter dropping
the (at most one) entry for the given skill. -/
theorem remove_eq_filter (sid : String) (l : List Entry) (hnd : nodupKeys l) :
    remove_active_skill sid l = l.filter (fun e => !(e.1 == sid)) :=
  removeLoop_eq_filter sid l.length l 0 hnd (by simp) (by omega)

theorem not_mem_keys_filter (sid : String) (l : List Entry) :
    sid ∉ regKeys (l.filter (fun e => !(e.1 == sid))) := by
  unfold regKeys
  intro hmem
  obtain ⟨e, he, heq⟩ := List.mem_map.mp hmem
  have := List.of_mem_filter he
  simp only [Bool.not_eq_true', beq_eq_false_iff_ne, ne_eq] at this
  exact this heq

theorem nodupKeys_remove (sid : String) (l : List Entry) (h : nodupKeys l) :
    nodupKeys (remove_active_skill sid l) := by
  rw [remove_eq_filter sid l h]
  exact nodupKeys_filter _ _ h

theorem nodupKeys_add (sid : String) (now : Int) (l : List Entry)
    (h : nodupKeys l) : nodupKeys (add_active_skill sid now l) := by
  unfold add_active_skill
  split
  · rw [remove_eq_filter sid l h]
    unfold nodupKeys regKeys
    rw [List.map_cons, List.nodup_cons]
    exact ⟨not_mem_keys_filter sid l, nodupKeys_filter _ _ h⟩
  · exact h

theorem nodupKeys_applyOp (op : RegOp) (s : List Entry) (h : nodupKeys s) :
    nodupKeys (applyOp op s) := by
  cases op with
  | activate sid now => exact nodupKeys_add sid now s h
  | deactivate sid => exact nodupKeys_remove sid s h
  | prune now => exact nodupKeys_filter _ _ h

theorem nodupKeys_foldl (ops : List RegOp) :
    ∀ s : List Entry, nodupKeys s →
      nodupKeys (ops.foldl (fun s op => applyOp op s) s) := by
  induction ops with
  | nil => intro s h; exact h
  | cons op rest ih =>
    intro s h
    exact ih (applyOp op s) (nodupKeys_applyOp op s h)

theorem nodupKeys_runOps (ops : List RegOp) : nodupKeys (runOps ops) :=
  nodupKeys_foldl ops [] (by simp [nodupKeys, regKeys])

end Vasco

namespace Vasco

/- ### Lemmas about the matcher chain -/

theorem runChain_skips_noMatch (pres : List MRes) (rs : List MRes)
    (h : ∀ r ∈ pres, r = MRes.noMatch) :
    runChain (pres ++ rs) = ((runChain rs).1, (runChain rs).2 + pres.length) := by
  induction pres with
  | nil => simp
  | cons r rest ih =>
    have hr : r = MRes.noMatch := h r (List.mem_cons_self r rest)
    subst hr
    rw [List.cons_append]
    show ((runChain (rest ++ rs)).1, (runChain (rest ++ rs)).2 + 1) = _
    rw [ih (fun x hx => h x (List.mem_cons_of_mem _ hx))]
    simp [Nat.add_assoc]

theorem chainOf_commit (f : MatcherName → String → String → MRes)
    (u lang : String) (pre post : List MatcherName) (nm : MatcherName)
    (m : IntentMatch) (horder : match_funcs = pre ++ nm :: post)
    (hpre : ∀ x ∈ pre, f x u lang = MRes.noMatch)
    (hnm : f nm u lang = MRes.found m) :
    chainOf f u lang = (Except.ok (Option.some m), pre.length + 1) := by
  unfold chainOf
  rw [horder, List.map_append, List.map_cons, hnm]
  rw [runChain_skips_noMatch _ _ (by
    intro r hr
    obtain ⟨x, hx, hxr⟩ := List.mem_map.mp hr
    rw [← hxr]
    exact hpre x hx)]
  have h2 : runChain (MRes.found m :: List.map (fun nm => f nm u lang) post) =
      (Except.ok (Option.some m), 1) := rfl
  rw [h2]
  simp [Nat.add_comm]

theorem chainOf_raise (f : MatcherName → String → String → MRes)
    (u lang : String) (pre post : List MatcherName) (nm : MatcherName)
    (horder : match_funcs = pre ++ nm :: post)
    (hpre : ∀ x ∈ pre, f x u lang = MRes.noMatch)
    (hnm : f nm u lang = MRes.raises) :
    chainOf f u lang = (Except.error (), pre.length + 1) := by
  unfold chainOf
  rw [horder, List.map_append, List.map_cons, hnm]
  rw [runChain_skips_noMatch _ _ (by
    intro r hr
    obtain ⟨x, hx, hxr⟩ := List.mem_map.mp hr
    rw [← hxr]
    exact hpre x hx)]
  have h2 : runChain (MRes.raises :: List.map (fun nm => f nm u lang) post) =
      (Except.error (), 1) := rfl
  rw [h2]
  simp [Nat.add_comm]

/-- Claim C1: `handle_utterance` runs the matchers in exactly the fixed
priority order Converse, Padatious high, Adapt, QA/Persona, Fallback high,
Padatious medium, Fallback medium, Padatious low, Fallback low, on the first
utterance alternative only, and commits to the first matcher that returns a
truthy result — exactly `pre.length + 1` matchers are invoked, so no later
matcher runs and no cross-matcher scoring happens; in particular whenever
Converse returns a match, that match wins regardless of what the Padatious
high tier would return. -/
theorem claim_C1_priority_order :
    (match_funcs = [MatcherName.converse, MatcherName.padatiousHigh,
      MatcherName.adapt, MatcherName.qa, MatcherName.fallbackHigh,
      MatcherName.padatiousMedium, MatcherName.fallbackMedium,
      MatcherName.padatiousLow, MatcherName.fallbackLow]) ∧
    (∀ (f : MatcherName → String → String → MRes)
       (msgLang configLang : Option String) (u : String) (rest : List String)
       (reg : List Entry) (now : Int) (lf : String),
      handle_utterance f msgLang configLang (u :: rest) reg now lf =
        handle_utterance f msgLang configLang [u] reg now lf) ∧
    (∀ (f : MatcherName → String → String → MRes) (u lang : String)
       (pre post : List MatcherName) (nm : MatcherName) (m : IntentMatch),
      match_funcs = pre ++ nm :: post →
      (∀ x ∈ pre, f x u lang = MRes.noMatch) →
      f nm u lang = MRes.found m →
      chainOf f u lang = (Except.ok (Option.some m), pre.length + 1)) ∧
    (∀ (f : MatcherName → String → String → MRes) (u lang : String)
       (m : IntentMatch),
      f MatcherName.converse u lang = MRes.found m →
      chainOf f u lang = (Except.ok (Option.some m), 1)) := by
  refine ⟨rfl, fun f ml cl u rest reg now lf => rfl, chainOf_commit, ?_⟩
  intro f u lang m hconv
  exact chainOf_commit f u lang [] _ MatcherName.converse m rfl (by simp) hconv

/-- Witness for C1: with only the Adapt matcher matching, the chain commits
to the Adapt result after invoking exactly the three matchers up to Adapt. -/
theorem claim_C1_priority_order_witness :
    chainOf (fun nm _ _ =>
        if nm = MatcherName.adapt then
          MRes.found ⟨"Adapt", Option.some "weather.intent", Option.some [],
            Option.some "weather-skill"⟩
        else MRes.noMatch) "hi" "en-us" =
      (Except.ok (Option.some ⟨"Adapt", Option.some "weather.intent",
        Option.some [], Option.some "weather-skill"⟩), 3) := by
  have h := claim_C1_priority_order.2.2.1 (fun nm _ _ =>
      if nm = MatcherName.adapt then
        MRes.found ⟨"Adapt", Option.some "weather.intent", Option.some [],
          Option.some "weather-skill"⟩
      else MRes.noMatch) "hi" "en-us"
    [MatcherName.converse, MatcherName.padatiousHigh]
    [MatcherName.qa, MatcherName.fallbackHigh, MatcherName.padatiousMedium,
      MatcherName.fallbackMedium, MatcherName.padatiousLow,
      MatcherName.fallbackLow]
    MatcherName.adapt
    ⟨"Adapt", Option.some "weather.intent", Option.some [],
      Option.some "weather-skill"⟩
    rfl (by decide) (by decide)
  simpa using h

end Vasco

namespace Vasco

/-- Claim C2: for every utterance event whose resolution completes without an
aborting pipeline error, `handle_utterance` publishes at most one targeted
intent message and at most one `complete_intent_failure` message, never both;
the failure message is published exactly once if and only if the matcher
chain returned no result. -/
theorem claim_C2_single_outcome :
    ∀ (f : MatcherName → String → String → MRes)
      (msgLang configLang : Option String) (u : String) (rest : List String)
      (reg : List Entry) (now : Int) (lf : String),
      (handle_utterance f msgLang configLang (u :: rest) reg now lf).aborted
        = false →
      countTargeted
        (handle_utterance f msgLang configLang (u :: rest) reg now lf).emitted
        ≤ 1 ∧
      countFailure
        (handle_utterance f msgLang configLang (u :: rest) reg now lf).emitted
        ≤ 1 ∧
      ¬(1 ≤ countTargeted
          (handle_utterance f msgLang configLang (u :: rest) reg now lf).emitted ∧
        1 ≤ countFailure
          (handle_utterance f msgLang configLang (u :: rest) reg now lf).emitted) ∧
      (countFailure
          (handle_utterance f msgLang configLang (u :: rest) reg now lf).emitted
          = 1 ↔
        (chainOf f u (_get_message_lang msgLang configLang)).1 =
          Except.ok Option.none) := by
  intro f ml cl u rest reg now lf hab
  have hcons : handle_utterance f ml cl (u :: rest) reg now lf =
      dispatchOutcome (chainOf f u (_get_message_lang ml cl)).1 u reg now
        (_get_message_lang ml cl) lf := rfl
  rw [hcons] at hab
  rw [hcons]
  rcases hc : (chainOf f u (_get_message_lang ml cl)).1 with e | om
  · rw [hc] at hab
    simp [dispatchOutcome] at hab
  · rcases om with - | m
    · simp [dispatchOutcome, countTargeted, countFailure]
    · by_cases ht : optStrTruthy m.intent_type = true
      · simp [dispatchOutcome, ht, countTargeted, countFailure, hc]
      · rw [Bool.not_eq_true] at ht
        simp [dispatchOutcome, ht, countTargeted, countFailure, hc]

/-- Witness for C2: with no matcher matching, the run is not aborted, there
is no targeted message and exactly one failure message. -/
theorem claim_C2_single_outcome_witness :
    countTargeted
      (handle_utterance (fun _ _ _ => MRes.noMatch) Option.none Option.none
        ["foo bar baz"] [] 0 "lf").emitted ≤ 1 ∧
    countFailure
      (handle_utterance (fun _ _ _ => MRes.noMatch) Option.none Option.none
        ["foo bar baz"] [] 0 "lf").emitted ≤ 1 ∧
    ¬(1 ≤ countTargeted
        (handle_utterance (fun _ _ _ => MRes.noMatch) Option.none Option.none
          ["foo bar baz"] [] 0 "lf").emitted ∧
      1 ≤ countFailure
        (handle_utterance (fun _ _ _ => MRes.noMatch) Option.none Option.none
          ["foo bar baz"] [] 0 "lf").emitted) ∧
    (countFailure
        (handle_utterance (fun _ _ _ => MRes.noMatch) Option.none Option.none
          ["foo bar baz"] [] 0 "lf").emitted = 1 ↔
      (chainOf (fun _ _ _ => MRes.noMatch) "foo bar baz"
        (_get_message_lang Option.none Option.none)).1 =
          Except.ok Option.none) :=
  claim_C2_single_outcome (fun _ _ _ => MRes.noMatch) Option.none Option.none
    "foo bar baz" [] [] 0 "lf" (by decide)

/-- Counterexample to claim C3 as stated: when the Converse matcher raises
while the Padatious high tier would match, the resolution aborts after
invoking only the first matcher — the remaining matchers are never tried and
nothing is published, contradicting "the pipeline proceeds to try each
remaining matcher in order". -/
theorem claim_C3_counterexample :
    (handle_utterance raisingChain Option.none Option.none ["hello"] []
      0 "lf").aborted = true ∧
    (handle_utterance raisingChain Option.none Option.none ["hello"] []
      0 "lf").emitted = [] ∧
    (chainOf raisingChain "hello" "en-us").2 = 1 ∧
    raisingChain MatcherName.padatiousHigh "hello" "en-us" =
      MRes.found ⟨"Padatious", Option.some "weather.intent", Option.some [],
        Option.some "weather-skill"⟩ := by
  decide

/-- Claim C3, amended: an exception raised by a matcher propagates out of the
matcher loop (there is no per-matcher handler) to the outer `except` of
`handle_utterance`, which logs it; the whole resolution aborts — no later
matcher is invoked, and neither a targeted intent message nor a
`complete_intent_failure` message is published for that event. -/
theorem claim_C3_amended :
    ∀ (f : MatcherName → String → String → MRes)
      (msgLang configLang : Option String) (u : String) (rest : List String)
      (reg : List Entry) (now : Int) (lf : String)
      (pre post : List MatcherName) (nm : MatcherName),
      match_funcs = pre ++ nm :: post →
      (∀ x ∈ pre, f x u (_get_message_lang msgLang configLang) = MRes.noMatch) →
      f nm u (_get_message_lang msgLang configLang) = MRes.raises →
      (handle_utterance f msgLang configLang (u :: rest) reg now lf).aborted
        = true ∧
      (handle_utterance f msgLang configLang (u :: rest) reg now lf).emitted
        = [] ∧
      chainOf f u (_get_message_lang msgLang configLang) =
        (Except.error (), pre.length + 1) := by
  intro f ml cl u rest reg now lf pre post nm horder hpre hnm
  have hchain := chainOf_raise f u (_get_message_lang ml cl) pre post nm
    horder hpre hnm
  have h1 : (chainOf f u (_get_message_lang ml cl)).1 = Except.error () := by
    rw [hchain]
  have hcons : handle_utterance f ml cl (u :: rest) reg now lf =
      dispatchOutcome (chainOf f u (_get_message_lang ml cl)).1 u reg now
        (_get_message_lang ml cl) lf := rfl
  exact ⟨by rw [hcons, h1]; rfl, by rw [hcons, h1]; rfl, hchain⟩

/-- Witness for C3 (amended): the fixture where Converse raises. -/
theorem claim_C3_amended_witness :
    (handle_utterance raisingChain Option.none Option.none ["hi"] [] 0
      "lf").aborted = true ∧
    (handle_utterance raisingChain Option.none Option.none ["hi"] [] 0
      "lf").emitted = [] ∧
    chainOf raisingChain "hi" (_get_message_lang Option.none Option.none) =
      (Except.error (), ([] : List MatcherName).length + 1) :=
  claim_C3_amended raisingChain Option.none Option.none "hi" [] [] 0 "lf"
    [] (match_funcs.tail) MatcherName.converse rfl (by decide) (by decide)

end Vasco

namespace Vasco

/- ### Lemmas about the converse round trip -/

theorem do_converse_fst (r : Option ReplyData) (reg : List Entry) :
    (do_converse r reg).1 = replyHandled r := by
  rcases r with - | d
  · rfl
  · rcases he : d.error with - | e <;> simp [do_converse, replyHandled, he]

theorem conversePass_all_unhandled (env : String → Option ReplyData) :
    ∀ (snapshot reg : List Entry),
      (∀ e ∈ snapshot, replyHandled (env e.1) = false) →
      (conversePass env snapshot reg).1 = Option.none := by
  intro snapshot
  induction snapshot with
  | nil => intro reg _; rfl
  | cons e rest ih =>
    intro reg hall
    have h1 : (do_converse (env e.1) reg).1 = false := by
      rw [do_converse_fst]
      exact hall e (List.mem_cons_self e rest)
    rw [conversePass, h1]
    simp only [Bool.false_eq_true, if_false]
    exact ih _ (fun x hx => hall x (List.mem_cons_of_mem _ hx))

theorem conversePass_requests_subset (env : String → Option ReplyData) :
    ∀ (snapshot reg : List Entry) (sid : String),
      sid ∈ (conversePass env snapshot reg).2.2 → sid ∈ regKeys snapshot := by
  intro snapshot
  induction snapshot with
  | nil => intro reg sid h; simp [conversePass] at h
  | cons e rest ih =>
    intro reg sid h
    rw [conversePass] at h
    by_cases h1 : (do_converse (env e.1) reg).1 = true
    · rw [h1] at h
      simp only [if_true, List.mem_singleton] at h
      subst h
      exact List.mem_cons_self _ _
    · rw [Bool.not_eq_true] at h1
      rw [h1] at h
      simp only [Bool.false_eq_true, if_false, List.mem_cons] at h
      rcases h with h | h
      · subst h; exact List.mem_cons_self _ _
      · exact List.mem_cons_of_mem _ (ih _ sid h)

theorem resetConverseLoop_requests (env : String → Option ReplyData) :
    ∀ (snapshot reg : List Entry),
      (resetConverseLoop env snapshot reg).2 = regKeys snapshot := by
  intro snapshot
  induction snapshot with
  | nil => intro reg; rfl
  | cons e rest ih =>
    intro reg
    rw [resetConverseLoop, ih]
    rfl

/-- Claim C4: the converse round trip.  A reply carrying an `error` field is
treated as not handled and evicts the reported skill exactly when the error
is the skill-no-longer-exists cause; an error-free reply is handled exactly
when its `result` field is truthy and leaves the registry alone; a timeout is
not handled; in the iteration over active skills (most recently activated
first), the first handled entry stops the loop with an `IntentMatch` whose
service is `"Converse"`, with no `intent_type`, no `intent_data`, and
`skill_id` equal to the responding skill; a non-handling entry lets the loop
continue; and when no entry handles, the result is none. -/
theorem claim_C4_converse_protocol :
    (∀ (d : ReplyData) (reg : List Entry) (e : String),
      d.error = Option.some e →
      do_converse (Option.some d) reg =
        (false,
          if e = "skill id does not exist"
          then remove_active_skill d.skill_id reg else reg)) ∧
    (∀ (d : ReplyData) (reg : List Entry), d.error = Option.none →
      do_converse (Option.some d) reg = (d.result, reg)) ∧
    (∀ reg : List Entry, do_converse Option.none reg = (false, reg)) ∧
    (∀ (env : String → Option ReplyData) (e : Entry) (rest reg : List Entry),
      (do_converse (env e.1) reg).1 = true →
      conversePass env (e :: rest) reg =
        (Option.some ⟨"Converse", Option.none, Option.none, Option.some e.1⟩,
          (do_converse (env e.1) reg).2, [e.1])) ∧
    (∀ (env : String → Option ReplyData) (e : Entry) (rest reg : List Entry),
      (do_converse (env e.1) reg).1 = false →
      conversePass env (e :: rest) reg =
        ((conversePass env rest (do_converse (env e.1) reg).2).1,
         (conversePass env rest (do_converse (env e.1) reg).2).2.1,
         e.1 :: (conversePass env rest (do_converse (env e.1) reg).2).2.2)) ∧
    (∀ (env : String → Option ReplyData) (snapshot reg : List Entry),
      (∀ e ∈ snapshot, replyHandled (env e.1) = false) →
      (conversePass env snapshot reg).1 = Option.none) := by
  refine ⟨?_, ?_, fun reg => rfl, ?_, ?_, conversePass_all_unhandled⟩
  · intro d reg e he
    simp [do_converse, he]
  · intro d reg he
    simp [do_converse, he]
  · intro env e rest reg h1
    rw [conversePass, h1]
    simp
  · intro env e rest reg h1
    rw [conversePass, h1]
    simp

/-- Witness for C4: a single active skill whose reply has a truthy `result`
stops the iteration with the Converse match. -/
theorem claim_C4_converse_protocol_witness :
    conversePass resultEnv [("timer-skill", 5)] [("timer-skill", 5)] =
      (Option.some ⟨"Converse", Option.none, Option.none,
        Option.some "timer-skill"⟩, [("timer-skill", 5)], ["timer-skill"]) := by
  have h := claim_C4_converse_protocol.2.2.2.1 resultEnv ("timer-skill", 5)
    [] [("timer-skill", 5)] (by decide)
  rw [h]
  decide

/-- Counterexample to claim C5 as stated: the converse pass triggered by a
speech-recognition-failure notification (`reset_converse`) does not prune:
an entry whose age (100000 seconds at `now = 100000`) far exceeds the
10-minute converse timeout is still targeted by a converse request. -/
theorem claim_C5_counterexample :
    (100000 : Int) - 0 > converse_timeout * 60 ∧
    "stale-skill" ∈ (reset_converse timeoutEnv [("stale-skill", 0)]).2 := by
  decide

/-- Claim C5, amended: an entry whose age exceeds the converse timeout is
never targeted by the utterance-pipeline converse (`_converse`): every such
attempt begins by lazily pruning expired entries (never via a background
timer), so a request is only issued to a skill with an unexpired registry
entry.  The converse pass triggered by the speech-recognition-failure
notification (`reset_converse`), however, does not prune and issues requests
to every entry of the registry, expired or not. -/
theorem claim_C5_lazy_pruning :
    (∀ (now : Int) (reg : List Entry) (e : Entry),
      e ∈ pruneExpired now converse_timeout reg →
      now - e.2 ≤ converse_timeout * 60) ∧
    (∀ (env : String → Option ReplyData) (now : Int) (reg : List Entry)
       (sid : String),
      sid ∈ (converseMatch env now reg).2.2 →
      ∃ e ∈ reg, e.1 = sid ∧ now - e.2 ≤ converse_timeout * 60) ∧
    (∀ (env : String → Option ReplyData) (reg : List Entry),
      (reset_converse env reg).2 = regKeys reg) := by
  refine ⟨?_, ?_, fun env reg => resetConverseLoop_requests env reg reg⟩
  · intro now reg e he
    unfold pruneExpired at he
    rw [List.mem_filter] at he
    exact of_decide_eq_true he.2
  · intro env now reg sid hmem
    have hkey : sid ∈ regKeys (pruneExpired now converse_timeout reg) :=
      conversePass_requests_subset env _ _ sid hmem
    obtain ⟨e, he, heq⟩ := List.mem_map.mp hkey
    unfold pruneExpired at he
    rw [List.mem_filter] at he
    exact ⟨e, he.1, heq, of_decide_eq_true he.2⟩

/-- Witness for C5 (amended): a fresh entry is requested by `_converse` and
is indeed unexpired. -/
theorem claim_C5_lazy_pruning_witness :
    ∃ e ∈ [(("active-skill", 0) : Entry)], e.1 = "active-skill" ∧
      (0 : Int) - e.2 ≤ converse_timeout * 60 :=
  claim_C5_lazy_pruning.2.1 timeoutEnv 0 [("active-skill", 0)] "active-skill"
    (by decide)

end Vasco

namespace Vasco

/-- Claim C6: the active-skill registry holds at most one entry per skill id
after every sequence of operations; activating an empty skill id is a no-op;
activating a non-empty skill id removes any existing entry for it and
inserts it at the front with the current timestamp;
`activate "X"; activate "Y"; activate "X"` yields the key order
`["X", "Y"]` with no duplicate; deactivation removes the entry if present
and is idempotent. -/
theorem claim_C6_registry :
    (∀ ops : List RegOp, nodupKeys (runOps ops)) ∧
    (∀ (now : Int) (l : List Entry), add_active_skill "" now l = l) ∧
    (∀ (sid : String) (now : Int) (l : List Entry), sid ≠ "" → nodupKeys l →
      add_active_skill sid now l =
        (sid, now) :: l.filter (fun e => !(e.1 == sid))) ∧
    (∀ t1 t2 t3 : Int,
      regKeys (add_active_skill "X" t3 (add_active_skill "Y" t2
        (add_active_skill "X" t1 []))) = ["X", "Y"]) ∧
    (∀ (sid : String) (l : List Entry), nodupKeys l →
      sid ∉ regKeys (remove_active_skill sid l) ∧
      remove_active_skill sid (remove_active_skill sid l) =
        remove_active_skill sid l) := by
  have hadd : ∀ (sid : String) (now : Int) (l : List Entry), sid ≠ "" →
      nodupKeys l →
      add_active_skill sid now l =
        (sid, now) :: l.filter (fun e => !(e.1 == sid)) := by
    intro sid now l hne hnd
    rw [add_active_skill, if_pos hne, remove_eq_filter sid l hnd]
  refine ⟨nodupKeys_runOps, ?_, hadd, ?_, ?_⟩
  · intro now l
    simp [add_active_skill]
  · intro t1 t2 t3
    rw [hadd "X" t1 [] (by decide) (by decide)]
    rw [hadd "Y" t2 _ (by decide) (by
      unfold nodupKeys regKeys
      show (["X"]).Nodup
      decide)]
    rw [hadd "X" t3 _ (by decide) (by
      unfold nodupKeys regKeys
      show (["Y", "X"]).Nodup
      decide)]
    rfl
  · intro sid l hnd
    have hf := remove_eq_filter sid l hnd
    refine ⟨by rw [hf]; exact not_mem_keys_filter sid l, ?_⟩
    have hnd2 : nodupKeys (remove_active_skill sid l) :=
      nodupKeys_remove sid l hnd
    rw [remove_eq_filter sid _ hnd2, hf]
    refine filter_eq_self_of_no_key sid _ ?_
    intro e he
    have := List.of_mem_filter he
    simpa using this

/-- Witness for C6: the registry operations at concrete inputs. -/
theorem claim_C6_registry_witness :
    add_active_skill "a" 5 [("b", 1)] = [("a", 5), ("b", 1)] ∧
    regKeys (add_active_skill "X" 3 (add_active_skill "Y" 2
      (add_active_skill "X" 1 []))) = ["X", "Y"] ∧
    "a" ∉ regKeys (remove_active_skill "a" [("a", 3), ("b", 4)]) := by
  refine ⟨?_, claim_C6_registry.2.2.2.1 1 2 3,
    (claim_C6_registry.2.2.2.2 "a" [("a", 3), ("b", 4)] (by decide)).1⟩
  rw [claim_C6_registry.2.2.1 "a" 5 [("b", 1)] (by decide) (by decide)]
  decide

end Vasco

namespace Vasco

/-- Counterexample to claim C7 as stated: a `word` of `0` (a number) is not
coerced to its textual form `"0"` — the `or ""` default catches every falsy
value first, so the stored key is the empty string. -/
theorem claim_C7_counterexample :
    (handle_add_context (PyVal.int 0) (PyVal.str "weather") PyVal.none).key
      = "" ∧
    PyVal.pyStr (PyVal.int 0) = "0" ∧
    (handle_add_context (PyVal.int 0) (PyVal.str "weather") PyVal.none).key ≠
      PyVal.pyStr (PyVal.int 0) := by
  decide

/-- Claim C7, amended: the entry forwarded to the Adapt context store has
confidence 1.0, data equal to the single pair (word, context), and match and
key both equal to word, where word is the message's `word` field coerced to
its textual string form when it is truthy and not already a string, and is
the empty string when the field is absent or falsy (no word supplied, empty
string, the number 0, False). -/
theorem claim_C7_context_entry :
    ∀ w c o : PyVal,
      (handle_add_context w c o).confidence = 1 ∧
      (handle_add_context w c o).data = [(wordOf w, c)] ∧
      (handle_add_context w c o).match_ = wordOf w ∧
      (handle_add_context w c o).key = wordOf w := by
  intro w c o
  rcases w with - | s | n | b
  · exact ⟨rfl, rfl, rfl, rfl⟩
  · by_cases hs : s = ""
    · subst hs
      exact ⟨rfl, rfl, rfl, rfl⟩
    · have ht : PyVal.truthy (PyVal.str s) = true := by
        simp [PyVal.truthy, hs]
      refine ⟨rfl, ?_, ?_, ?_⟩ <;>
        simp [handle_add_context, wordOf, ht, PyVal.isStr, PyVal.pyStr]
  · by_cases hn : n = 0
    · subst hn
      exact ⟨rfl, rfl, rfl, rfl⟩
    · have ht : PyVal.truthy (PyVal.int n) = true := by
        simp [PyVal.truthy, hn]
      refine ⟨rfl, ?_, ?_, ?_⟩ <;>
        simp [handle_add_context, wordOf, ht, PyVal.isStr, PyVal.pyStr]
  · cases b
    · exact ⟨rfl, rfl, rfl, rfl⟩
    · exact ⟨rfl, rfl, rfl, rfl⟩

/-- Claim C8: after any sequence of `register_vocab` messages, the vocabulary
manifest query replies with the log holding every registered payload
verbatim, in registration order, with duplicates preserved (the log is
append-only). -/
theorem claim_C8_vocab_roundtrip :
    ∀ msgs : List (List (String × PyVal)),
      handle_vocab_manifest
        (msgs.foldl handle_register_vocab
          ([] : List (List (String × PyVal)))) = msgs := by
  intro msgs
  unfold handle_vocab_manifest
  have h : ∀ init : List (List (String × PyVal)),
      msgs.foldl handle_register_vocab init = init ++ msgs := by
    induction msgs with
    | nil => intro init; simp
    | cons m rest ih =>
      intro init
      rw [List.foldl_cons, ih]
      unfold handle_register_vocab
      simp
  simpa using h []

end Vasco

namespace Vasco

/-- Counterexample to claim C9 as stated: when the event carries no language,
the effective language is not the configured default itself but its
lower-cased form — with default `"EN-US"` the matchers receive `"en-us"`. -/
theorem claim_C9_counterexample :
    _get_message_lang Option.none (Option.some "EN-US") = "en-us" ∧
    _get_message_lang Option.none (Option.some "EN-US") ≠ "EN-US" := by
  constructor
  · rfl
  · decide

/-- Claim C9, amended: the effective language is the event's `lang` field
when present, else the process-wide configured default, in either case
lower-cased; this language is the one every matcher call of that event
receives; and the language binding changes no state outside the call —
`set_default_lf_lang` is a stub that returns `"en-us"` and leaves the
lingua-franca state untouched, so in particular nothing is persisted when a
language was supplied. -/
theorem claim_C9_language_binding :
    (∀ (l : String) (cl : Option String),
      _get_message_lang (Option.some l) cl = strLower l) ∧
    (∀ cl : Option String,
      _get_message_lang Option.none cl = strLower (cl.getD "en-us")) ∧
    (∀ (f : MatcherName → String → String → MRes)
       (msgLang configLang : Option String) (utts : List String)
       (reg : List Entry) (now : Int) (lf : String),
      (handle_utterance f msgLang configLang utts reg now lf).langUsed =
        _get_message_lang msgLang configLang ∧
      (handle_utterance f msgLang configLang utts reg now lf).lfState = lf) ∧
    (∀ lang lf : String, set_default_lf_lang lang lf = (lf, "en-us")) ∧
    (∀ (f g : MatcherName → String → String → MRes)
       (msgLang configLang : Option String) (utts : List String)
       (reg : List Entry) (now : Int) (lf : String),
      (∀ nm u, f nm u (_get_message_lang msgLang configLang) =
               g nm u (_get_message_lang msgLang configLang)) →
      handle_utterance f msgLang configLang utts reg now lf =
        handle_utterance g msgLang configLang utts reg now lf) := by
  refine ⟨fun l cl => rfl, fun cl => rfl, ?_, fun lang lf => rfl, ?_⟩
  · intro f ml cl utts reg now lf
    cases utts with
    | nil => exact ⟨rfl, rfl⟩
    | cons u rest =>
      have hcons : handle_utterance f ml cl (u :: rest) reg now lf =
          dispatchOutcome (chainOf f u (_get_message_lang ml cl)).1 u reg now
            (_get_message_lang ml cl) lf := rfl
      rw [hcons]
      rcases (chainOf f u (_get_message_lang ml cl)).1 with - | om
      · exact ⟨rfl, rfl⟩
      · rcases om with - | m
        · exact ⟨rfl, rfl⟩
        · exact ⟨rfl, rfl⟩
  · intro f g ml cl utts reg now lf hfg
    cases utts with
    | nil => rfl
    | cons u rest =>
      have hchain : chainOf f u (_get_message_lang ml cl) =
          chainOf g u (_get_message_lang ml cl) := by
        unfold chainOf
        simp only [hfg]
      have h1 : handle_utterance f ml cl (u :: rest) reg now lf =
          dispatchOutcome (chainOf f u (_get_message_lang ml cl)).1 u reg now
            (_get_message_lang ml cl) lf := rfl
      have h2 : handle_utterance g ml cl (u :: rest) reg now lf =
          dispatchOutcome (chainOf g u (_get_message_lang ml cl)).1 u reg now
            (_get_message_lang ml cl) lf := rfl
      rw [h1, h2, hchain]

/-- Witness for C9 (amended): two matcher assignments agreeing at the
effective language produce identical outcomes. -/
theorem claim_C9_language_binding_witness :
    handle_utterance (fun _ _ _ => MRes.noMatch) Option.none Option.none
      ["hello"] [] 0 "state" =
    handle_utterance (fun _ _ _ => MRes.noMatch) Option.none Option.none
      ["hello"] [] 0 "state" :=
  claim_C9_language_binding.2.2.2.2 (fun _ _ _ => MRes.noMatch)
    (fun _ _ _ => MRes.noMatch) Option.none Option.none ["hello"] [] 0 "state"
    (fun nm u => rfl)

/- ### Lemmas about the intent probe -/

theorem giLoop_all_none (f : MatcherName → Option IntentMatch) :
    ∀ l : List MatcherName, (∀ nm ∈ l, f nm = Option.none) →
      giLoop f l = [Option.none] := by
  intro l
  induction l with
  | nil => intro _; rfl
  | cons nm rest ih =>
    intro hall
    have h1 : f nm = Option.none := hall nm (List.mem_cons_self nm rest)
    rw [giLoop, h1]
    exact ih (fun x hx => hall x (List.mem_cons_of_mem _ hx))

theorem giLoop_first_some (f : MatcherName → Option IntentMatch) :
    ∀ (pre : List MatcherName) (nm : MatcherName) (post : List MatcherName)
      (m : IntentMatch),
      (∀ x ∈ pre, f x = Option.none) → f nm = Option.some m →
      giLoop f (pre ++ nm :: post) =
        (if optStrTruthy m.intent_type then
          [Option.some ((m.intent_data.getD []) ++
            [("intent_name", PyVal.str (m.intent_type.getD "")),
             ("intent_service", PyVal.str m.intent_service),
             ("skill_id", optToPy m.skill_id),
             ("handler", PyVal.str (handlerName nm))])]
         else []) := by
  intro pre
  induction pre with
  | nil =>
    intro nm post m _ hm
    rw [List.nil_append, giLoop, hm]
  | cons x rest ih =>
    intro nm post m hpre hm
    have hx : f x = Option.none := hpre x (List.mem_cons_self x rest)
    rw [List.cons_append, giLoop, hx]
    exact ih nm post m (fun y hy => hpre y (List.mem_cons_of_mem _ hy)) hm

/-- Counterexample to claim C10 as stated: a probe whose first match carries
no `intent_type` makes `handle_get_intent` return without publishing any
reply at all — the query does not receive exactly one reply. -/
theorem claim_C10_counterexample :
    (handle_get_intent typelessProbe "hello" Option.none []).1 = [] ∧
    ((handle_get_intent typelessProbe "hello" Option.none []).1).length ≠ 1 := by
  decide

/-- Claim C10, amended: the `intent.service.intent.get` probe runs only the
reduced matcher subset (Padatious high, Adapt, Padatious medium, Padatious
low — excluding Converse, QA and all Fallback tiers), never mutates the
active-skill registry, replies exactly once with a null intent when no
matcher matches, and replies exactly once with the first match's augmented
intent data when that match carries an `intent_type`; when the first match
carries no `intent_type`, the handler returns without sending any reply. -/
theorem claim_C10_intent_probe :
    (get_intent_funcs = [MatcherName.padatiousHigh, MatcherName.adapt,
      MatcherName.padatiousMedium, MatcherName.padatiousLow]) ∧
    (MatcherName.converse ∉ get_intent_funcs ∧
     MatcherName.qa ∉ get_intent_funcs ∧
     MatcherName.fallbackHigh ∉ get_intent_funcs ∧
     MatcherName.fallbackMedium ∉ get_intent_funcs ∧
     MatcherName.fallbackLow ∉ get_intent_funcs) ∧
    (∀ (f : MatcherName → String → String → Option IntentMatch)
       (utterance : String) (msgLang : Option String) (reg : List Entry),
      (handle_get_intent f utterance msgLang reg).2 = reg) ∧
    (∀ (f : MatcherName → String → String → Option IntentMatch)
       (utterance : String) (msgLang : Option String) (reg : List Entry),
      (∀ nm ∈ get_intent_funcs,
        f nm utterance (msgLang.getD "en-us") = Option.none) →
      (handle_get_intent f utterance msgLang reg).1 = [Option.none]) ∧
    (∀ (f : MatcherName → String → String → Option IntentMatch)
       (utterance : String) (msgLang : Option String) (reg : List Entry)
       (pre : List MatcherName) (nm : MatcherName) (post : List MatcherName)
       (m : IntentMatch),
      get_intent_funcs = pre ++ nm :: post →
      (∀ x ∈ pre, f x utterance (msgLang.getD "en-us") = Option.none) →
      f nm utterance (msgLang.getD "en-us") = Option.some m →
      (handle_get_intent f utterance msgLang reg).1 =
        (if optStrTruthy m.intent_type then
          [Option.some ((m.intent_data.getD []) ++
            [("intent_name", PyVal.str (m.intent_type.getD "")),
             ("intent_service", PyVal.str m.intent_service),
             ("skill_id", optToPy m.skill_id),
             ("handler", PyVal.str (handlerName nm))])]
         else [])) := by
  refine ⟨rfl, by decide, fun f utterance msgLang reg => rfl, ?_, ?_⟩
  · intro f utterance msgLang reg hall
    exact giLoop_all_none _ get_intent_funcs hall
  · intro f utterance msgLang reg pre nm post m horder hpre hm
    show giLoop (fun nm => f nm utterance (msgLang.getD "en-us"))
        get_intent_funcs = _
    rw [horder]
    exact giLoop_first_some _ pre nm post m hpre hm

/-- Witness for C10 (amended): a probe where nothing matches replies exactly
once with a null intent. -/
theorem claim_C10_intent_probe_witness :
    (handle_get_intent (fun _ _ _ => Option.none) "what time is it"
      Option.none []).1 = [Option.none] :=
  claim_C10_intent_probe.2.2.2.1 (fun _ _ _ => Option.none) "what time is it"
    Option.none [] (fun nm _ => rfl)

end Vasco
